import Mathlib

/-!
# Verification of `lotofacil_analyzer.py`

A shallow embedding of the core of `AnalisadorLotofacil` (the class in
`src/lotofacil_analyzer.py`) together with proofs about its generators.

Modelling conventions:

* A draw (`jogo`) is a `List ℕ`; the history (`self.historico_numeros`) is a
  `List (List ℕ)` in chronological order, oldest first.
* Python floats are modelled as `ℚ`.  Every float that the program compares or
  truncates is a mean `p/q` of small integers or a product `m * 0.8` with
  `m ≤ 25`; for those values IEEE-754 double arithmetic is either exact or so
  close to the rational value that every comparison and truncation in the code
  agrees with the exact rational one, so the `ℚ` model is faithful.
* Python exceptions are modelled by `Option`: a function that can raise on some
  input returns `none` exactly on the inputs where the original raises.
* `sorted(..., key=k, reverse=True)` and `Counter.most_common` are stable sorts
  (CPython guarantees stability, and `most_common` is documented as
  `sorted(items, key=itemgetter(1), reverse=True)`).  A stable sort is the
  unique sorted permutation in which elements with equal keys keep their input
  order, and Mathlib's `List.insertionSort` with the non-strict relation
  `fun a b => k b ≤ k a` computes exactly that permutation, so it models them
  exactly.
* Iteration over a CPython `set` of the integers 1..25 (at most 15 of them, so
  the hash table has 32 slots and `hash(i) = i` places them in ascending slot
  order) yields the elements in ascending order; since every stored draw is
  already sorted ascending, `set(jogo)` is modelled by the sorted list itself.
-/

namespace Lotofacil

/-- One historical draw, as stored in `self.historico_numeros`. -/
abbrev Draw := List ℕ

/-- `self.historico_numeros`: ordered sequence of past draws. -/
abbrev History := List Draw

/-- `self.todos_numeros = range(1, 26)`, i.e. `[1, ..., 25]`. -/
def todos_numeros : List ℕ := List.range' 1 25

/-- `[num for jogo in historico for num in jogo]`. -/
def todos (h : History) : List ℕ := h.flatten

/-- Python `sorted(l)` (ascending).  On a linear order the sorted permutation is
unique, so insertion sort models it exactly. -/
def sortAsc {α : Type} [LinearOrder α] (l : List α) : List α :=
  List.insertionSort (· ≤ ·) l

/-- The relation used by Python's stable `sorted(..., key=k, reverse=True)`:
`a` may stay before `b` iff `k b ≤ k a`. -/
def rdK {α β : Type} [LinearOrder β] (k : α → β) : α → α → Prop :=
  fun a b => k b ≤ k a

instance {α β : Type} [LinearOrder β] (k : α → β) : DecidableRel (rdK k) := fun a b =>
  inferInstanceAs (Decidable (k b ≤ k a))

/-- Total order: key descending, ties broken by ascending index.  A stable
descending sort of a list whose indices are strictly increasing is sorted for
this order; it is the order the spec describes for tie-breaking. -/
def rlK {α β : Type} [LinearOrder β] (k : α → β) (idx : α → ℕ) : α → α → Prop :=
  fun a b => k b < k a ∨ (k a = k b ∧ idx a ≤ idx b)

instance {α β : Type} [LinearOrder β] (k : α → β) (idx : α → ℕ) :
    DecidableRel (rlK k idx) := fun a b =>
  inferInstanceAs (Decidable (k b < k a ∨ (k a = k b ∧ idx a ≤ idx b)))

/-- The keys of `Counter(l)` in insertion order, i.e. the distinct elements of
`l` in order of first occurrence (CPython dicts preserve insertion order). -/
def firstOccAux : List ℕ → List ℕ → List ℕ
  | acc, [] => acc
  | acc, a :: l => if a ∈ acc then firstOccAux acc l else firstOccAux (acc ++ [a]) l

/-- Distinct elements of `l` in first-occurrence order. -/
def firstOcc (l : List ℕ) : List ℕ := firstOccAux [] l

/-- `Counter(l).most_common()`: the distinct elements sorted by count
descending; the sort is stable, so ties keep first-occurrence order. -/
def most_common (l : List ℕ) : List ℕ :=
  List.insertionSort (rdK (fun n => l.count n)) (firstOcc l)

/-- `jogo_mais_sorteados` (Jogo 1): the 15 numbers with the highest total
occurrence count (`contador.most_common(15)`), returned sorted ascending.
The printing details (`detalhes`) are not modelled. -/
def jogo_mais_sorteados (h : History) : List ℕ :=
  sortAsc ((most_common (todos h)).take 15)

/-- `jogo_menos_sorteados` (Jogo 2): `contador.most_common()[-15:]`, the last 15
entries of the full descending ranking, returned sorted ascending. -/
def jogo_menos_sorteados (h : History) : List ℕ :=
  sortAsc ((most_common (todos h)).drop ((most_common (todos h)).length - 15))

/-- `aparicoes`: 1/0 presence trace of `numero` over the history. -/
def apOf (numero : ℕ) (h : History) : List Bool :=
  h.map (fun jogo => jogo.contains numero)

/-- One iteration of the run-splitting loop in `_analisar_padroes_numero`.
State: (`em_sequencia_presente`, `seq_atual`, `sequencias_presente`,
`sequencias_ausente`). -/
def runsStep : Bool × ℕ × List ℕ × List ℕ → Bool → Bool × ℕ × List ℕ × List ℕ
  | (em, seq, pres, aus), true =>
    if em then (true, seq + 1, pres, aus)
    else (true, 1, pres, if 0 < seq then aus ++ [seq] else aus)
  | (em, seq, pres, aus), false =>
    if em then (false, 1, if 0 < seq then pres ++ [seq] else pres, aus)
    else (false, seq + 1, pres, aus)

/-- The presence-run and absence-run length lists computed by
`_analisar_padroes_numero`: the loop starting from
`seq_atual = 0, em_sequencia_presente = (aparicoes[0] == 1)`, followed by
closing the final open run. -/
def runsOf (ap : List Bool) : List ℕ × List ℕ :=
  match ap.foldl runsStep (ap.headD false, 0, [], []) with
  | (em, seq, pres, aus) =>
    if 0 < seq then (if em then (pres ++ [seq], aus) else (pres, aus ++ [seq]))
    else (pres, aus)

/-- The statistics dictionary returned by `_analisar_padroes_numero`. -/
structure Stats where
  numero : ℕ
  total_aparicoes : ℕ
  media_seq_presente : ℚ
  media_seq_ausente : ℚ
  max_seq_presente : ℕ
  max_seq_ausente : ℕ
  sorteios_sem_aparecer : ℕ
  sorteios_aparecendo : ℕ
  apareceu_ultimo : Bool
deriving DecidableEq

/-- The statistics built from a non-empty presence trace: run lists from
`runsOf`, means via `np.mean` (0 when the list is empty), maxima via `max`
(0 when empty), and the trailing streak counted by the backward scans. -/
def mkStats (numero : ℕ) (ap : List Bool) : Stats :=
  let pres := (runsOf ap).1
  let aus := (runsOf ap).2
  let ultimo := ap.getLastD false
  { numero := numero
    total_aparicoes := ap.count true
    media_seq_presente := if pres = [] then 0 else (pres.sum : ℚ) / (pres.length : ℚ)
    media_seq_ausente := if aus = [] then 0 else (aus.sum : ℚ) / (aus.length : ℚ)
    max_seq_presente := pres.foldr max 0
    max_seq_ausente := aus.foldr max 0
    sorteios_sem_aparecer := if ultimo then 0 else (ap.reverse.takeWhile (fun b => !b)).length
    sorteios_aparecendo := if ultimo then (ap.reverse.takeWhile (fun b => b)).length else 0
    apareceu_ultimo := ultimo }

/-- `_analisar_padroes_numero(numero)`.  On an empty history the source
evaluates `aparicoes[0]` on an empty list and raises `IndexError`; that
exception is modelled by `none`. -/
def _analisar_padroes_numero (numero : ℕ) (hist : History) : Option Stats :=
  if (apOf numero hist).isEmpty then none
  else some (mkStats numero (apOf numero hist))

/-- `calcular_probabilidade_proximo(stats)`, with `len(self.historico_numeros)`
passed explicitly.  `0.8` is the rational `8/10` (see the header note on
floats). -/
def calcular_probabilidade_proximo (histLen : ℕ) (stats : Stats) : ℚ :=
  let base : ℚ :=
    if stats.apareceu_ultimo then
      if (stats.sorteios_aparecendo : ℚ) < stats.media_seq_presente then 50 else 20
    else
      if stats.media_seq_ausente ≤ (stats.sorteios_sem_aparecer : ℚ) then 60 else 10
  let score : ℚ := base + (stats.total_aparicoes : ℚ) / (histLen : ℚ) * 30
  if stats.apareceu_ultimo ∧
      (stats.max_seq_presente : ℚ) * (8 / 10) < (stats.sorteios_aparecendo : ℚ) then
    score - 30
  else score

/-- The pattern score of number `n`: `calcular_probabilidade_proximo` applied
to the stats of `n` (meaningful when the history is non-empty). -/
def probOf (h : History) (n : ℕ) : ℚ :=
  calcular_probabilidade_proximo h.length (mkStats n (apOf n h))

/-- `[(n, f n) for n in todos_numeros]`: the per-number score list in
enumeration order 1..25 (the iteration order of the `scores` dict). -/
def scoresList (f : ℕ → ℚ) : List (ℕ × ℚ) := todos_numeros.map (fun n => (n, f n))

/-- Rank 1..25 by score descending with Python's stable sort, keep the first
15 numbers, and return them sorted ascending.  Common shape of Jogo 3 and
Jogo 7. -/
def select15 (f : ℕ → ℚ) : List ℕ :=
  sortAsc (((List.insertionSort (rdK Prod.snd) (scoresList f)).take 15).map Prod.fst)

/-- Same selection, phrased with the total order `score descending, ties by
ascending number` the spec prescribes. -/
def select15lex (f : ℕ → ℚ) : List ℕ :=
  sortAsc (((List.insertionSort (rlK Prod.snd Prod.fst) (scoresList f)).take 15).map Prod.fst)

/-- `jogo_probabilidade_padrao` (Jogo 3).  On an empty history the first call
to `_analisar_padroes_numero` raises (modelled by `none`). -/
def jogo_probabilidade_padrao (h : History) : Option (List ℕ) :=
  if h.isEmpty then none else some (select15 (probOf h))

/-- Number of even values in a draw. -/
def qtd_pares (jogo : Draw) : ℕ := (jogo.filter (fun n => n % 2 == 0)).length

/-- `dist_pares`: the even-count of each historical draw. -/
def dist_pares (h : History) : List ℕ := h.map qtd_pares

/-- The even numbers of 1..25 sorted by total count descending (stable). -/
def pares_ord (h : History) : List ℕ :=
  List.insertionSort (rdK (fun n => (todos h).count n))
    (todos_numeros.filter (fun n => n % 2 == 0))

/-- The odd numbers of 1..25 sorted by total count descending (stable). -/
def impares_ord (h : History) : List ℕ :=
  List.insertionSort (rdK (fun n => (todos h).count n))
    (todos_numeros.filter (fun n => n % 2 != 0))

/-- `jogo_pares_impares_equilibrado` (Jogo 4).  On an empty history
`contador_dist.most_common(1)[0]` raises `IndexError` (modelled by `none`). -/
def jogo_pares_impares_equilibrado (h : History) : Option (List ℕ) :=
  if (dist_pares h).isEmpty then none
  else
    let q := (most_common (dist_pares h)).headD 0
    some (sortAsc ((pares_ord h).take q ++ (impares_ord h).take (15 - q)))

/-- `repeticoes`: for each pair of consecutive draws, the size of their
intersection (`len(set(h[i-1]) & set(h[i]))`; draws have no duplicates, so the
filter length is the intersection size). -/
def repeticoes (h : History) : List ℕ :=
  (h.zip h.tail).map (fun p => (p.1.filter (fun n => p.2.contains n)).length)

/-- `media_repeticoes = int(np.mean(repeticoes))`: truncation of the mean,
i.e. natural-number division (meaningful when `repeticoes` is non-empty). -/
def media_repeticoes (h : History) : ℕ := (repeticoes h).sum / (repeticoes h).length

/-- `ultimo_jogo = set(self.historico_numeros[-1])`, iterated ascending (the
stored draw is already sorted). -/
def ultimo_jogo (h : History) : Draw := h.getLastD []

/-- `todos_exceto_ultimo`: all numbers of all draws except the most recent. -/
def todos_exceto_ultimo (h : History) : List ℕ := h.dropLast.flatten

/-- Frequency of `n` over all draws except the most recent. -/
def cntExcl (h : History) (n : ℕ) : ℕ := (todos_exceto_ultimo h).count n

/-- Membership test in the most recent draw. -/
def inUltimo (h : History) (n : ℕ) : Bool := (ultimo_jogo h).contains n

/-- Complement membership test for the most recent draw. -/
def notInUltimo (h : History) (n : ℕ) : Bool := !(ultimo_jogo h).contains n

/-- `numeros_ultimo_ordenados`: the last draw sorted by `cntExcl` descending. -/
def numeros_ultimo_ordenados (h : History) : List ℕ :=
  List.insertionSort (rdK (cntExcl h)) (ultimo_jogo h)

/-- `numeros_novos`: numbers of 1..25 not in the last draw. -/
def numeros_novos (h : History) : List ℕ := todos_numeros.filter (notInUltimo h)

/-- `numeros_novos_ordenados`: `numeros_novos` sorted by `cntExcl` descending. -/
def numeros_novos_ordenados (h : History) : List ℕ :=
  List.insertionSort (rdK (cntExcl h)) (numeros_novos h)

/-- `jogo_sequencias_repeticoes` (Jogo 5).  With fewer than 2 draws
`repeticoes` is empty, `np.mean([])` is NaN and `int(NaN)` raises `ValueError`
(modelled by `none`). -/
def jogo_sequencias_repeticoes (h : History) : Option (List ℕ) :=
  if (repeticoes h).isEmpty then none
  else
    let rep := (numeros_ultimo_ordenados h).take (media_repeticoes h)
    some (sortAsc (rep ++ (numeros_novos_ordenados h).take (15 - rep.length)))

/-- The five bands `faixas` of `jogo_distribuicao_espacial`, in dict insertion
order. -/
def faixas : List (List ℕ) :=
  [List.range' 1 5, List.range' 6 5, List.range' 11 5, List.range' 16 5, List.range' 21 5]

/-- `int(round(np.mean(valores)))` for a list of naturals with sum `s` and
length `n`: round-half-to-even of `s/n` (Python's `round`), written with exact
integer arithmetic. -/
def rneMean (s n : ℕ) : ℕ :=
  if 2 * (s % n) < n then s / n
  else if n < 2 * (s % n) then s / n + 1
  else if (s / n) % 2 = 0 then s / n else s / n + 1

/-- Band selection of `jogo_distribuicao_espacial`: the band's mean per-draw
count, rounded, taken from the band sorted by total count descending. -/
def selFaixa (h : History) (band : List ℕ) : List ℕ :=
  let valores := h.map (fun jogo => (jogo.filter (fun n => band.contains n)).length)
  (List.insertionSort (rdK (fun n => (todos h).count n)) band).take
    (rneMean valores.sum valores.length)

/-- `jogo_distribuicao_espacial` (Jogo 6).  On an empty history `np.mean([])`
is NaN and `int(round(nan))` raises (modelled by `none`). -/
def jogo_distribuicao_espacial (h : History) : Option (List ℕ) :=
  if h.isEmpty then none else some (sortAsc ((faixas.map (selFaixa h)).flatten))

/-- `max(contador.values())`: the largest count attained in `l` (0 for the
empty list; the source only evaluates it on non-empty counters). -/
def maxCount (l : List ℕ) : ℕ := (l.map (fun n => l.count n)).foldr max 0

/-- `self.historico_numeros[-50:]` flattened. -/
def recentes (h : History) : List ℕ := todos (h.drop (h.length - 50))

/-- `self.historico_numeros[-5:]` flattened. -/
def ultimos_5 (h : History) : List ℕ := todos (h.drop (h.length - 5))

/-- The total score of `num` in `jogo_machine_learning_scoring`: the sum of the
four criteria (general frequency 25%, last-50 trend 30%, pattern score 25%,
hot numbers 20%). -/
def mfScore (h : History) (num : ℕ) : ℚ :=
  ((todos h).count num : ℚ) / (maxCount (todos h) : ℚ) * 25
    + ((recentes h).count num : ℚ)
        / ((if (recentes h).isEmpty then 1 else maxCount (recentes h) : ℕ) : ℚ) * 30
    + probOf h num / 100 * 25
    + (if 2 ≤ (ultimos_5 h).count num then 20
       else if (ultimos_5 h).count num = 1 then 10 else 0)

/-- `jogo_machine_learning_scoring` (Jogo 7).  On a history with no numbers at
all, `max(contador.values())` raises `ValueError` (modelled by `none`). -/
def jogo_machine_learning_scoring (h : History) : Option (List ℕ) :=
  if (todos h).isEmpty then none else some (select15 (mfScore h))

/-- Result of `jogo_series_temporais_lstm` up to the point where actual
training would start: either it returns a candidate list plus messages, or it
proceeds to build and train the model. -/
inductive LstmResult where
  | returned (jogo : List ℕ) (detalhes : List String)
  | trains
deriving DecidableEq

/-- The message returned when TensorFlow is not importable. -/
def msg_sem_tensorflow : List String :=
  ["TensorFlow não está instalado. Modelo LSTM desativado.",
   "Execute: pip install tensorflow"]

/-- The message returned when the history is shorter than `sequence_length + 1`
draws (the f-string with `sequence_length + 1 = 11` interpolated). -/
def msg_historico_insuficiente : List String :=
  ["Histórico insuficiente. São necessários pelo menos 11 sorteios."]

/-- `sequence_length = 10`. -/
def sequence_length : ℕ := 10

/-- The guard structure of `jogo_series_temporais_lstm` (Jogo 9): the model is
built and trained only when TensorFlow is available and the history has at
least `sequence_length + 1` draws. -/
def jogo_series_temporais_lstm (tensorflow_available : Bool) (h : History) : LstmResult :=
  if !tensorflow_available then .returned [] msg_sem_tensorflow
  else if h.length < sequence_length + 1 then .returned [] msg_historico_insuficiente
  else .trains

/-- One ball field of one input row, as seen by
`int(row[col]) for col in colunas_bolas if col in row`: either the column is
missing from the row (skipped by the `if col in row` filter), or its value
does not parse as an integer (`int` raises `ValueError`), or it is an
integer. -/
inductive Cell where
  | missing
  | nonNumeric
  | val (z : ℤ)
deriving DecidableEq

/-- The parsed value of a cell, when it has one. -/
def cellVal : Cell → Option ℤ
  | Cell.val z => some z
  | _ => none

/-- `[int(row[col]) for col in colunas_bolas if col in row]`: missing columns
are filtered out, a non-numeric value raises (modelled by `none`). -/
def rowInts : List Cell → Option (List ℤ)
  | [] => some []
  | Cell.missing :: cs => rowInts cs
  | Cell.nonNumeric :: _ => none
  | Cell.val z :: cs => (rowInts cs).map (fun ns => z :: ns)

/-- `_extrair_historico`: one pass over the rows; a row contributes
`sorted(numeros)` when parsing succeeded and produced exactly 15 values, and
is silently skipped otherwise (`except ... continue`). -/
def _extrair_historico (rows : List (List Cell)) : List (List ℤ) :=
  rows.filterMap (fun r =>
    (rowInts r).bind (fun ns => if ns.length = 15 then some (sortAsc ns) else none))

/-- The spec's description of one row: it contributes its 15 integers sorted
ascending iff all 15 ball fields parse as integers, and nothing otherwise. -/
def rowSpec (r : List Cell) : Option (List ℤ) :=
  if r.length = 15 ∧ ∀ c ∈ r, (cellVal c).isSome then some (sortAsc (r.filterMap cellVal))
  else none

/-- The Draw invariant of the spec: 15 strictly increasing (hence distinct,
sorted) values, all in [1,25].  Every entry built by `_extrair_historico` from
real draw data satisfies it. -/
def ValidDraw (d : Draw) : Prop :=
  d.length = 15 ∧ d.Pairwise (· < ·) ∧ ∀ n ∈ d, 1 ≤ n ∧ n ≤ 25

/-- Every draw of the history satisfies the Draw invariant. -/
def ValidHistory (h : History) : Prop := ∀ d ∈ h, ValidDraw d

/-- `n` appears in every draw of the history. -/
def appearsInAll (n : ℕ) (h : History) : Prop := ∀ d ∈ h, n ∈ d

/-- The CandidateSet invariant: exactly 15 distinct numbers, all in [1,25]. -/
def Valid15 (l : List ℕ) : Prop :=
  l.length = 15 ∧ l.Nodup ∧ ∀ n ∈ l, 1 ≤ n ∧ n ≤ 25

/-- An optional generator result that is present and a valid CandidateSet. -/
def GenOk (o : Option (List ℕ)) : Prop := o.isSome ∧ Valid15 (o.getD [])

instance (d : Draw) : Decidable (ValidDraw d) :=
  inferInstanceAs (Decidable (d.length = 15 ∧ d.Pairwise (· < ·) ∧ ∀ n ∈ d, 1 ≤ n ∧ n ≤ 25))

instance (h : History) : Decidable (ValidHistory h) :=
  inferInstanceAs (Decidable (∀ d ∈ h, ValidDraw d))

instance (n : ℕ) (h : History) : Decidable (appearsInAll n h) :=
  inferInstanceAs (Decidable (∀ d ∈ h, n ∈ d))

instance (l : List ℕ) : Decidable (Valid15 l) :=
  inferInstanceAs (Decidable (l.length = 15 ∧ l.Nodup ∧ ∀ n ∈ l, 1 ≤ n ∧ n ≤ 25))

/-! ## Generic facts about the stable sorts -/

instance {α β : Type} [LinearOrder β] (k : α → β) : IsTotal α (rdK k) :=
  ⟨fun a b => le_total (k b) (k a)⟩

instance {α β : Type} [LinearOrder β] (k : α → β) : IsTrans α (rdK k) :=
  ⟨fun _ _ _ hab hbc => le_trans hbc hab⟩

instance {α β : Type} [LinearOrder β] (k : α → β) (idx : α → ℕ) :
    IsTotal α (rlK k idx) := by
  constructor
  intro a b
  rcases lt_trichotomy (k a) (k b) with hk | hk | hk
  · exact Or.inr (Or.inl hk)
  · rcases le_total (idx a) (idx b) with hi | hi
    · exact Or.inl (Or.inr ⟨hk, hi⟩)
    · exact Or.inr (Or.inr ⟨hk.symm, hi⟩)
  · exact Or.inl (Or.inl hk)

instance {α β : Type} [LinearOrder β] (k : α → β) (idx : α → ℕ) :
    IsTrans α (rlK k idx) := by
  constructor
  rintro a b c (hab | ⟨hab, hab'⟩) (hbc | ⟨hbc, hbc'⟩)
  · exact Or.inl (hbc.trans hab)
  · exact Or.inl (hbc ▸ hab)
  · exact Or.inl (hab ▸ hbc)
  · exact Or.inr ⟨hab.trans hbc, hab'.trans hbc'⟩

instance {β : Type} [LinearOrder β] (k : ℕ → β) : IsAntisymm ℕ (rlK k id) := by
  constructor
  rintro a b (hab | ⟨hab, hab'⟩) (hba | ⟨hba, hba'⟩)
  · exact (lt_asymm hab hba).elim
  · exact absurd hab (by rw [hba]; exact lt_irrefl _)
  · exact absurd hba (by rw [hab]; exact lt_irrefl _)
  · exact le_antisymm hab' hba'

instance : IsAntisymm (ℕ × ℚ) (rlK Prod.snd Prod.fst) := by
  constructor
  rintro ⟨a1, a2⟩ ⟨b1, b2⟩ (hab | ⟨hab, hab'⟩) (hba | ⟨hba, hba'⟩)
  · exact (lt_asymm hab hba).elim
  · exact absurd hab (by rw [hba]; exact lt_irrefl _)
  · exact absurd hba (by rw [hab]; exact lt_irrefl _)
  · obtain rfl : a1 = b1 := le_antisymm hab' hba'
    obtain rfl : a2 = b2 := hab
    rfl

/-- Inserting an element whose index is smaller than every index of an
`rlK`-sorted list, at the position the stable descending sort chooses,
keeps the list `rlK`-sorted. -/
theorem orderedInsert_sorted_rlK {α β : Type} [LinearOrder β] (k : α → β) (idx : α → ℕ)
    (x : α) : ∀ l : List α, l.Sorted (rlK k idx) → (∀ y ∈ l, idx x < idx y) →
    (List.orderedInsert (rdK k) x l).Sorted (rlK k idx)
  | [], _, _ => List.sorted_singleton x
  | y :: l, hs, hidx => by
    rw [List.orderedInsert]
    by_cases hxy : rdK k x y
    · rw [if_pos hxy, List.sorted_cons]
      refine ⟨?_, hs⟩
      intro b hb
      have hky : k b ≤ k y := by
        rcases List.mem_cons.mp hb with rfl | hb
        · exact le_rfl
        · rcases List.rel_of_sorted_cons hs b hb with hlt | ⟨heq, _⟩
          · exact hlt.le
          · exact le_of_eq heq.symm
      have hkx : k b ≤ k x := le_trans hky hxy
      rcases lt_or_eq_of_le hkx with hlt | heq
      · exact Or.inl hlt
      · exact Or.inr ⟨heq.symm, (hidx b hb).le⟩
    · rw [if_neg hxy]
      have hyx : k y < k x ∨ k x < k y ∨ k x = k y := by
        rcases lt_trichotomy (k y) (k x) with h1 | h1 | h1
        · exact Or.inl h1
        · exact Or.inr (Or.inr h1.symm)
        · exact Or.inr (Or.inl h1)
      have hkxy : k x < k y := by
        rcases le_or_lt (k y) (k x) with hle | hlt
        · exact absurd hle hxy
        · exact hlt
      rw [List.sorted_cons]
      refine ⟨?_,
        orderedInsert_sorted_rlK k idx x l hs.of_cons fun z hz => hidx z (List.mem_cons_of_mem y hz)⟩
      intro b hb
      rcases (List.mem_orderedInsert (rdK k)).mp hb with rfl | hb
      · exact Or.inl hkxy
      · exact List.rel_of_sorted_cons hs b hb

/-- The stable descending sort of a list with strictly increasing indices is
sorted for the total order `key descending, ties by ascending index`. -/
theorem insertionSort_rdK_sorted_rlK {α β : Type} [LinearOrder β] (k : α → β) (idx : α → ℕ) :
    ∀ l : List α, l.Pairwise (fun a b => idx a < idx b) →
    (List.insertionSort (rdK k) l).Sorted (rlK k idx)
  | [], _ => List.sorted_nil
  | x :: l, hp => by
    rw [List.insertionSort]
    refine orderedInsert_sorted_rlK k idx x _
      (insertionSort_rdK_sorted_rlK k idx l hp.of_cons) ?_
    intro y hy
    exact List.rel_of_pairwise_cons hp ((List.perm_insertionSort (rdK k) l).mem_iff.mp hy)

/-- On a list with strictly increasing indices, the stable descending sort and
the sort by the total lexicographic order agree (stability, specialised to
indices that determine the elements). -/
theorem insertionSort_rdK_eq_rlK {α β : Type} [LinearOrder β] (k : α → β) (idx : α → ℕ)
    [IsAntisymm α (rlK k idx)] (l : List α) (hp : l.Pairwise (fun a b => idx a < idx b)) :
    List.insertionSort (rdK k) l = List.insertionSort (rlK k idx) l :=
  List.eq_of_perm_of_sorted
    ((List.perm_insertionSort (rdK k) l).trans (List.perm_insertionSort (rlK k idx) l).symm)
    (insertionSort_rdK_sorted_rlK k idx l hp)
    (List.sorted_insertionSort (rlK k idx) l)

/-! ## Facts about `firstOcc` and `most_common` -/

theorem mem_firstOccAux (x : ℕ) : ∀ (l acc : List ℕ), x ∈ firstOccAux acc l ↔ x ∈ acc ∨ x ∈ l
  | [], acc => by simp [firstOccAux]
  | a :: l, acc => by
    by_cases ha : a ∈ acc
    · rw [firstOccAux, if_pos ha, mem_firstOccAux x l acc]
      constructor
      · exact fun hx => hx.imp id (List.mem_cons_of_mem a)
      · rintro (hx | hx)
        · exact Or.inl hx
        · rcases List.mem_cons.mp hx with rfl | hx
          · exact Or.inl ha
          · exact Or.inr hx
    · rw [firstOccAux, if_neg ha, mem_firstOccAux x l (acc ++ [a])]
      simp only [List.mem_append, List.mem_singleton, List.mem_cons]
      tauto

theorem firstOccAux_nodup : ∀ (l acc : List ℕ), acc.Nodup → (firstOccAux acc l).Nodup
  | [], _, h => by simpa [firstOccAux] using h
  | a :: l, acc, h => by
    by_cases ha : a ∈ acc
    · rw [firstOccAux, if_pos ha]
      exact firstOccAux_nodup l acc h
    · rw [firstOccAux, if_neg ha]
      refine firstOccAux_nodup l (acc ++ [a]) ?_
      simp [List.nodup_append, h, ha]

theorem mem_firstOcc {x : ℕ} {l : List ℕ} : x ∈ firstOcc l ↔ x ∈ l := by
  rw [firstOcc, mem_firstOccAux]
  simp

theorem firstOcc_nodup (l : List ℕ) : (firstOcc l).Nodup :=
  firstOccAux_nodup l [] List.nodup_nil

theorem most_common_perm (l : List ℕ) : (most_common l).Perm (firstOcc l) :=
  List.perm_insertionSort _ _

theorem most_common_nodup (l : List ℕ) : (most_common l).Nodup :=
  ((most_common_perm l).nodup_iff).mpr (firstOcc_nodup l)

theorem mem_most_common {x : ℕ} {l : List ℕ} : x ∈ most_common l ↔ x ∈ l := by
  rw [(most_common_perm l).mem_iff, mem_firstOcc]

theorem most_common_sorted (l : List ℕ) :
    (most_common l).Sorted (rdK (fun n => l.count n)) :=
  List.sorted_insertionSort _ _

/-! ## Basic facts about draws, counts and `select15` -/

theorem sortAsc_perm {α : Type} [LinearOrder α] (l : List α) : (sortAsc l).Perm l :=
  List.perm_insertionSort _ _

theorem todos_numeros_pairwise : todos_numeros.Pairwise (· < ·) :=
  List.pairwise_lt_range' 1 25

theorem todos_numeros_nodup : todos_numeros.Nodup :=
  todos_numeros_pairwise.imp ne_of_lt

theorem mem_todos_numeros {n : ℕ} : n ∈ todos_numeros ↔ 1 ≤ n ∧ n ≤ 25 := by
  rw [todos_numeros, List.mem_range'_1]
  omega

theorem ValidDraw.nodup {d : Draw} (hd : ValidDraw d) : d.Nodup :=
  hd.2.1.imp ne_of_lt

theorem mem_todos_bounds {h : History} (hv : ValidHistory h) {n : ℕ} (hn : n ∈ todos h) :
    1 ≤ n ∧ n ≤ 25 := by
  obtain ⟨d, hd, hnd⟩ := List.mem_flatten.mp hn
  exact (hv d hd).2.2 n hnd

theorem count_le_hlen {h : History} (hv : ValidHistory h) (n : ℕ) :
    (todos h).count n ≤ h.length := by
  rw [todos, List.count_flatten]
  have hle : (h.map (List.count n)).sum ≤ (h.map (List.count n)).length • 1 := by
    refine List.sum_le_card_nsmul _ 1 ?_
    intro x hx
    obtain ⟨d, hd, rfl⟩ := List.mem_map.mp hx
    exact List.nodup_iff_count_le_one.mp (hv d hd).nodup n
  simpa using hle

theorem count_eq_hlen {h : History} (hv : ValidHistory h) {n : ℕ} (hall : appearsInAll n h) :
    (todos h).count n = h.length := by
  rw [todos, List.count_flatten]
  have hmap : h.map (List.count n) = h.map (fun _ => 1) := by
    refine List.map_congr_left ?_
    intro d hd
    exact List.count_eq_one_of_mem (hv d hd).nodup (hall d hd)
  rw [hmap]
  simp [List.map_const]

theorem fifteen_le_firstOcc {h : History} (hv : ValidHistory h) (hne : h ≠ []) :
    15 ≤ (firstOcc (todos h)).length := by
  obtain ⟨d, t, rfl⟩ := List.exists_cons_of_ne_nil hne
  have hd : ValidDraw d := hv d (List.mem_cons_self d t)
  have hsubset : d.toFinset ⊆ (firstOcc (todos (d :: t))).toFinset := by
    intro x hx
    rw [List.mem_toFinset] at hx ⊢
    rw [mem_firstOcc]
    exact List.mem_flatten.mpr ⟨d, List.mem_cons_self d t, hx⟩
  calc 15 = d.toFinset.card := by rw [List.toFinset_card_of_nodup hd.nodup, hd.1]
    _ ≤ (firstOcc (todos (d :: t))).toFinset.card := Finset.card_le_card hsubset
    _ ≤ (firstOcc (todos (d :: t))).length := List.toFinset_card_le _

theorem scoresList_fst (f : ℕ → ℚ) : (scoresList f).map Prod.fst = todos_numeros := by
  simp only [scoresList, List.map_map]
  exact List.map_id _

theorem scoresList_pairwise (f : ℕ → ℚ) :
    (scoresList f).Pairwise (fun a b => a.1 < b.1) :=
  List.Pairwise.map _ (fun _ _ hab => hab) todos_numeros_pairwise

theorem select15_eq_lex (f : ℕ → ℚ) : select15 f = select15lex f := by
  rw [select15, select15lex,
    insertionSort_rdK_eq_rlK Prod.snd Prod.fst (scoresList f) (scoresList_pairwise f)]

theorem select15_valid (f : ℕ → ℚ) : Valid15 (select15 f) := by
  show Valid15 (sortAsc (((List.insertionSort (rdK Prod.snd) (scoresList f)).take 15).map Prod.fst))
  set S := List.insertionSort (rdK Prod.snd) (scoresList f) with hS
  have hperm : S.Perm (scoresList f) := List.perm_insertionSort _ _
  have hlen : (scoresList f).length = 25 := by simp [scoresList, todos_numeros]
  have hmapS : (S.map Prod.fst).Perm todos_numeros := by
    rw [← scoresList_fst f]
    exact hperm.map _
  have hsub : ((S.take 15).map Prod.fst).Sublist (S.map Prod.fst) :=
    (List.take_sublist _ _).map _
  have hA : (sortAsc ((S.take 15).map Prod.fst)).Perm ((S.take 15).map Prod.fst) :=
    sortAsc_perm _
  refine ⟨?_, ?_, ?_⟩
  · rw [hA.length_eq, List.length_map, List.length_take, hperm.length_eq, hlen]
    rfl
  · exact hA.nodup_iff.mpr (hsub.nodup (hmapS.nodup_iff.mpr todos_numeros_nodup))
  · intro n hn
    exact mem_todos_numeros.mp (hmapS.mem_iff.mp (hsub.subset (hA.mem_iff.mp hn)))

/-! ## The frequency generators -/

theorem jogo_mais_valid {h : History} (hv : ValidHistory h) (hne : h ≠ []) :
    Valid15 (jogo_mais_sorteados h) := by
  have h15 : 15 ≤ (most_common (todos h)).length := by
    rw [(most_common_perm (todos h)).length_eq]
    exact fifteen_le_firstOcc hv hne
  have hA : (jogo_mais_sorteados h).Perm ((most_common (todos h)).take 15) := sortAsc_perm _
  refine ⟨?_, ?_, ?_⟩
  · rw [hA.length_eq, List.length_take]
    exact min_eq_left h15
  · exact hA.nodup_iff.mpr ((List.take_sublist _ _).nodup (most_common_nodup _))
  · intro n hn
    exact mem_todos_bounds hv (mem_most_common.mp ((List.take_subset _ _) (hA.mem_iff.mp hn)))

theorem jogo_menos_valid {h : History} (hv : ValidHistory h) (hne : h ≠ []) :
    Valid15 (jogo_menos_sorteados h) := by
  have h15 : 15 ≤ (most_common (todos h)).length := by
    rw [(most_common_perm (todos h)).length_eq]
    exact fifteen_le_firstOcc hv hne
  have hA : (jogo_menos_sorteados h).Perm
      ((most_common (todos h)).drop ((most_common (todos h)).length - 15)) := sortAsc_perm _
  refine ⟨?_, ?_, ?_⟩
  · rw [hA.length_eq, List.length_drop]
    omega
  · exact hA.nodup_iff.mpr ((List.drop_sublist _ _).nodup (most_common_nodup _))
  · intro n hn
    exact mem_todos_bounds hv (mem_most_common.mp ((List.drop_subset _ _) (hA.mem_iff.mp hn)))

/-- Number of distinct numbers occurring in the history whose total count is
smaller than the number of draws (numbers that miss at least one draw). -/
def nonUniversalCount (h : History) : ℕ :=
  ((firstOcc (todos h)).filter (fun n => decide ((todos h).count n < h.length))).length

/-- Core of the amended C7: with at least 15 non-universal numbers, the last 15
entries of the descending ranking all have count `< h.length`, so a number
appearing in every draw cannot be among them. -/
theorem not_mem_menos_of_appearsInAll {h : History} (hv : ValidHistory h)
    (h15 : 15 ≤ nonUniversalCount h) {n : ℕ} (hall : appearsInAll n h) :
    n ∉ jogo_menos_sorteados h := by
  intro hmem
  have hcnt : (todos h).count n = h.length := count_eq_hlen hv hall
  set M := most_common (todos h) with hM
  set k := M.length - 15 with hk
  have hnT : n ∈ M.drop k := (sortAsc_perm (M.drop k)).mem_iff.mp hmem
  have hsorted : (M.take k ++ M.drop k).Sorted (rdK (fun m => (todos h).count m)) := by
    rw [List.take_append_drop]
    exact most_common_sorted _
  have hpair := (List.pairwise_append.mp hsorted).2.2
  have htake_full : ∀ a ∈ M.take k, ¬ (todos h).count a < h.length := by
    intro a ha
    have h1 : (todos h).count n ≤ (todos h).count a := hpair a ha n hnT
    have h2 : (todos h).count a ≤ h.length := count_le_hlen hv a
    omega
  have hfo : nonUniversalCount h =
      (M.filter (fun m => decide ((todos h).count m < h.length))).length := by
    rw [nonUniversalCount]
    exact ((most_common_perm (todos h)).symm.filter _).length_eq
  obtain ⟨T1, T2, hsplitT⟩ := List.append_of_mem hnT
  have hTlen : (M.drop k).length ≤ 15 := by
    rw [List.length_drop]
    omega
  have hfilter : (M.filter (fun m => decide ((todos h).count m < h.length))).length ≤ 14 := by
    conv_lhs => rw [← List.take_append_drop k M]
    rw [List.filter_append, List.length_append, hsplitT, List.filter_append, List.filter_cons,
      List.length_append]
    have hz : (M.take k).filter (fun m => decide ((todos h).count m < h.length)) = [] :=
      List.filter_eq_nil_iff.mpr (fun a ha => by simpa using htake_full a ha)
    have hnn : (decide ((todos h).count n < h.length)) = false := by
      simp [hcnt]
    rw [hz, hnn]
    simp only [List.length_nil, Bool.false_eq_true, if_false, Nat.zero_add]
    have hT1 : T1.length + T2.length + 1 ≤ 15 := by
      have := congrArg List.length hsplitT
      simp only [List.length_append, List.length_cons] at this
      omega
    have := List.length_filter_le (fun m => decide ((todos h).count m < h.length)) T1
    have := List.length_filter_le (fun m => decide ((todos h).count m < h.length)) T2
    omega
  omega

/-! ## The parity generator -/

theorem qtd_pares_bounds {d : Draw} (hd : ValidDraw d) :
    2 ≤ qtd_pares d ∧ qtd_pares d ≤ 12 := by
  have hnodup := hd.nodup
  have hsplit := List.length_eq_length_filter_add (l := d) (fun n => n % 2 == 0)
  have heven : (d.filter (fun n => n % 2 == 0)).length ≤ 12 := by
    have hsubs : (d.filter (fun n => n % 2 == 0)).toFinset ⊆
        (todos_numeros.filter (fun n => n % 2 == 0)).toFinset := by
      intro x hx
      rw [List.mem_toFinset, List.mem_filter] at hx ⊢
      exact ⟨mem_todos_numeros.mpr (hd.2.2 x hx.1), hx.2⟩
    have h1 : (d.filter (fun n => n % 2 == 0)).toFinset.card =
        (d.filter (fun n => n % 2 == 0)).length :=
      List.toFinset_card_of_nodup (hnodup.filter _)
    have h2 : (todos_numeros.filter (fun n => n % 2 == 0)).toFinset.card ≤ 12 := by
      have := List.toFinset_card_le (todos_numeros.filter (fun n => n % 2 == 0))
      have hl : (todos_numeros.filter (fun n => n % 2 == 0)).length = 12 := by decide
      omega
    have := Finset.card_le_card hsubs
    omega
  have hodd : (d.filter (fun n => !(n % 2 == 0))).length ≤ 13 := by
    have hsubs : (d.filter (fun n => !(n % 2 == 0))).toFinset ⊆
        (todos_numeros.filter (fun n => !(n % 2 == 0))).toFinset := by
      intro x hx
      rw [List.mem_toFinset, List.mem_filter] at hx ⊢
      exact ⟨mem_todos_numeros.mpr (hd.2.2 x hx.1), hx.2⟩
    have h1 : (d.filter (fun n => !(n % 2 == 0))).toFinset.card =
        (d.filter (fun n => !(n % 2 == 0))).length :=
      List.toFinset_card_of_nodup (hnodup.filter _)
    have h2 : (todos_numeros.filter (fun n => !(n % 2 == 0))).toFinset.card ≤ 13 := by
      have := List.toFinset_card_le (todos_numeros.filter (fun n => !(n % 2 == 0)))
      have hl : (todos_numeros.filter (fun n => !(n % 2 == 0))).length = 13 := by decide
      omega
    have := Finset.card_le_card hsubs
    omega
  have hlen := hd.1
  rw [qtd_pares]
  omega

theorem jogo_pares_valid {h : History} (hv : ValidHistory h) (hne : h ≠ []) :
    GenOk (jogo_pares_impares_equilibrado h) := by
  have hdp : dist_pares h ≠ [] := by
    rw [dist_pares]
    simpa using hne
  have hdpe : ¬((dist_pares h).isEmpty = true) := by
    simpa [List.isEmpty_iff] using hdp
  obtain ⟨x, xs, hx⟩ := List.exists_cons_of_ne_nil hdp
  have hxmem : x ∈ most_common (dist_pares h) :=
    mem_most_common.mpr (by rw [hx]; exact List.mem_cons_self x xs)
  have hmcne : most_common (dist_pares h) ≠ [] := List.ne_nil_of_mem hxmem
  set q := (most_common (dist_pares h)).headD 0 with hq
  have hqmc : q ∈ most_common (dist_pares h) := by
    obtain ⟨y, ys, hy⟩ := List.exists_cons_of_ne_nil hmcne
    rw [hq, hy]
    simp
  have hqmem : q ∈ dist_pares h := mem_most_common.mp hqmc
  rw [dist_pares] at hqmem
  obtain ⟨d, hd, hdq⟩ := List.mem_map.mp hqmem
  have hqb : 2 ≤ q ∧ q ≤ 12 := hdq ▸ qtd_pares_bounds (hv d hd)
  have hP : (pares_ord h).Perm (todos_numeros.filter (fun n => n % 2 == 0)) :=
    List.perm_insertionSort _ _
  have hI : (impares_ord h).Perm (todos_numeros.filter (fun n => n % 2 != 0)) :=
    List.perm_insertionSort _ _
  have hPlen : (pares_ord h).length = 12 := by
    rw [hP.length_eq]
    decide
  have hIlen : (impares_ord h).length = 13 := by
    rw [hI.length_eq]
    decide
  have hPnodup : (pares_ord h).Nodup := hP.nodup_iff.mpr (todos_numeros_nodup.filter _)
  have hInodup : (impares_ord h).Nodup := hI.nodup_iff.mpr (todos_numeros_nodup.filter _)
  have hAlen : ((pares_ord h).take q).length = q := by
    rw [List.length_take, hPlen]
    exact min_eq_left (by omega)
  have hBlen : ((impares_ord h).take (15 - q)).length = 15 - q := by
    rw [List.length_take, hIlen]
    exact min_eq_left (by omega)
  have hdisj : ((pares_ord h).take q).Disjoint ((impares_ord h).take (15 - q)) := by
    intro a haA haB
    have h1 := (List.mem_filter.mp (hP.mem_iff.mp ((List.take_subset _ _) haA))).2
    have h2 := (List.mem_filter.mp (hI.mem_iff.mp ((List.take_subset _ _) haB))).2
    simp only [beq_iff_eq, bne_iff_ne, ne_eq] at h1 h2
    exact h2 h1
  have hball : Valid15 (sortAsc ((pares_ord h).take q ++ (impares_ord h).take (15 - q))) := by
    have hS := sortAsc_perm ((pares_ord h).take q ++ (impares_ord h).take (15 - q))
    refine ⟨?_, ?_, ?_⟩
    · rw [hS.length_eq, List.length_append, hAlen, hBlen]
      omega
    · refine hS.nodup_iff.mpr (List.nodup_append.mpr ⟨?_, ?_, hdisj⟩)
      · exact (List.take_sublist _ _).nodup hPnodup
      · exact (List.take_sublist _ _).nodup hInodup
    · intro n hn
      rcases List.mem_append.mp (hS.mem_iff.mp hn) with hn | hn
      · exact mem_todos_numeros.mp
          (List.mem_filter.mp (hP.mem_iff.mp ((List.take_subset _ _) hn))).1
      · exact mem_todos_numeros.mp
          (List.mem_filter.mp (hI.mem_iff.mp ((List.take_subset _ _) hn))).1
  rw [jogo_pares_impares_equilibrado, if_neg hdpe]
  show GenOk (some (sortAsc ((pares_ord h).take q ++ (impares_ord h).take (15 - q))))
  exact ⟨by simp, by rw [Option.getD_some]; exact hball⟩

/-! ## The repetition generator -/

/-- Two valid draws share at least 5 numbers: 15 + 15 - 25. -/
theorem inter_card_ge_five {d1 d2 : Draw} (h1 : ValidDraw d1) (h2 : ValidDraw d2) :
    5 ≤ (d1.filter (fun n => d2.contains n)).length := by
  have hfin : (d1.filter (fun n => d2.contains n)).toFinset = d1.toFinset ∩ d2.toFinset := by
    rw [List.toFinset_filter]
    rw [Finset.filter_congr (q := fun x => x ∈ d2.toFinset) (fun x _ => by simp)]
    exact Finset.filter_mem_eq_inter
  have hlen : (d1.filter (fun n => d2.contains n)).length =
      (d1.toFinset ∩ d2.toFinset).card := by
    rw [← hfin, List.toFinset_card_of_nodup (h1.nodup.filter _)]
  have hsub : d1.toFinset ∪ d2.toFinset ⊆ todos_numeros.toFinset := by
    intro x hx
    rw [List.mem_toFinset, mem_todos_numeros]
    rcases Finset.mem_union.mp hx with hx | hx
    · exact h1.2.2 x (List.mem_toFinset.mp hx)
    · exact h2.2.2 x (List.mem_toFinset.mp hx)
  have h25 : todos_numeros.toFinset.card ≤ 25 := by
    have hle := List.toFinset_card_le todos_numeros
    have hl : todos_numeros.length = 25 := by decide
    omega
  have hunion : (d1.toFinset ∪ d2.toFinset).card ≤ 25 :=
    le_trans (Finset.card_le_card hsub) h25
  have hie := Finset.card_inter_add_card_union d1.toFinset d2.toFinset
  have hc1 : d1.toFinset.card = 15 := by rw [List.toFinset_card_of_nodup h1.nodup, h1.1]
  have hc2 : d2.toFinset.card = 15 := by rw [List.toFinset_card_of_nodup h2.nodup, h2.1]
  omega

theorem repeticoes_bounds {h : History} (hv : ValidHistory h) :
    ∀ c ∈ repeticoes h, 5 ≤ c ∧ c ≤ 15 := by
  intro c hc
  rw [repeticoes] at hc
  obtain ⟨p, hp, hpc⟩ := List.mem_map.mp hc
  have hmem := List.of_mem_zip hp
  have h1 : ValidDraw p.1 := hv _ hmem.1
  have h2 : ValidDraw p.2 := hv _ (List.tail_subset h hmem.2)
  rw [← hpc]
  constructor
  · exact inter_card_ge_five h1 h2
  · have hle := List.length_filter_le (fun n => p.2.contains n) p.1
    rw [h1.1] at hle
    exact hle

theorem repeticoes_length (h : History) : (repeticoes h).length = h.length - 1 := by
  rw [repeticoes, List.length_map, List.length_zip, List.length_tail]
  exact min_eq_right (Nat.sub_le _ _)

theorem media_repeticoes_bounds {h : History} (hv : ValidHistory h) (h2 : 2 ≤ h.length) :
    5 ≤ media_repeticoes h ∧ media_repeticoes h ≤ 15 := by
  have hlen : (repeticoes h).length = h.length - 1 := repeticoes_length h
  have hpos : 0 < (repeticoes h).length := by omega
  have hlow : 5 * (repeticoes h).length ≤ (repeticoes h).sum := by
    have hs := List.card_nsmul_le_sum (repeticoes h) 5 (fun c hc => (repeticoes_bounds hv c hc).1)
    simpa [mul_comm] using hs
  have hhigh : (repeticoes h).sum ≤ 15 * (repeticoes h).length := by
    have hs := List.sum_le_card_nsmul (repeticoes h) 15 (fun c hc => (repeticoes_bounds hv c hc).2)
    simpa [mul_comm] using hs
  constructor
  · rw [media_repeticoes]
    exact (Nat.le_div_iff_mul_le hpos).mpr (by omega)
  · rw [media_repeticoes]
    calc (repeticoes h).sum / (repeticoes h).length
        ≤ 15 * (repeticoes h).length / (repeticoes h).length := Nat.div_le_div_right hhigh
      _ = 15 := Nat.mul_div_cancel 15 hpos

theorem ultimo_jogo_mem {h : History} (hne : h ≠ []) : ultimo_jogo h ∈ h := by
  rw [ultimo_jogo, List.getLastD_eq_getLast?, List.getLast?_eq_getLast h hne]
  exact List.getLast_mem hne

theorem contains_iff_mem {l : List ℕ} {a : ℕ} : l.contains a = true ↔ a ∈ l := by
  simp

theorem numeros_novos_length {h : History} (hv : ValidHistory h) (hne : h ≠ []) :
    (numeros_novos h).length = 10 := by
  have hu : ValidDraw (ultimo_jogo h) := hv _ (ultimo_jogo_mem hne)
  have hsplit := List.length_eq_length_filter_add (l := todos_numeros) (inUltimo h)
  have htn : todos_numeros.length = 25 := by decide
  have hl15 : (todos_numeros.filter (inUltimo h)).length = 15 := by
    have hnodup := todos_numeros_nodup.filter (inUltimo h)
    have hfin : (todos_numeros.filter (inUltimo h)).toFinset = (ultimo_jogo h).toFinset := by
      ext x
      rw [List.mem_toFinset, List.mem_toFinset, List.mem_filter]
      constructor
      · intro hx
        have hx2 := hx.2
        simp only [inUltimo] at hx2
        exact contains_iff_mem.mp hx2
      · intro hx
        refine ⟨mem_todos_numeros.mpr (hu.2.2 x hx), ?_⟩
        simp only [inUltimo]
        exact contains_iff_mem.mpr hx
    have hcard2 : (ultimo_jogo h).toFinset.card = 15 := by
      rw [List.toFinset_card_of_nodup hu.nodup, hu.1]
    rw [← List.toFinset_card_of_nodup hnodup, hfin, hcard2]
  have heq : numeros_novos h = todos_numeros.filter (fun a => !(inUltimo h a)) := rfl
  rw [heq]
  omega

theorem repeticoes_ne_nil {h : History} (h2 : 2 ≤ h.length) : repeticoes h ≠ [] := by
  have hlen := repeticoes_length h
  intro hcon
  rw [hcon] at hlen
  simp at hlen
  omega

theorem jogo_repeticoes_eq {h : History} (hrep : repeticoes h ≠ []) :
    jogo_sequencias_repeticoes h =
      some (sortAsc ((numeros_ultimo_ordenados h).take (media_repeticoes h) ++
        (numeros_novos_ordenados h).take
          (15 - ((numeros_ultimo_ordenados h).take (media_repeticoes h)).length))) := by
  rw [jogo_sequencias_repeticoes, if_neg (by simpa [List.isEmpty_iff] using hrep)]

theorem jogo_repeticoes_valid {h : History} (hv : ValidHistory h) (h2 : 2 ≤ h.length) :
    GenOk (jogo_sequencias_repeticoes h) := by
  have hne : h ≠ [] := by
    intro hcon
    rw [hcon] at h2
    simp at h2
  have hm := media_repeticoes_bounds hv h2
  have hu : ValidDraw (ultimo_jogo h) := hv _ (ultimo_jogo_mem hne)
  have hU : (numeros_ultimo_ordenados h).Perm (ultimo_jogo h) := List.perm_insertionSort _ _
  have hN : (numeros_novos_ordenados h).Perm (numeros_novos h) := List.perm_insertionSort _ _
  have hUlen : (numeros_ultimo_ordenados h).length = 15 := by rw [hU.length_eq, hu.1]
  have hNlen : (numeros_novos_ordenados h).length = 10 := by
    rw [hN.length_eq]
    exact numeros_novos_length hv hne
  have hreplen : ((numeros_ultimo_ordenados h).take (media_repeticoes h)).length =
      media_repeticoes h := by
    rw [List.length_take, hUlen]
    exact min_eq_left (by omega)
  have hnovlen : ((numeros_novos_ordenados h).take
      (15 - ((numeros_ultimo_ordenados h).take (media_repeticoes h)).length)).length =
      15 - media_repeticoes h := by
    rw [hreplen, List.length_take, hNlen]
    exact min_eq_left (by omega)
  have hdisj : ((numeros_ultimo_ordenados h).take (media_repeticoes h)).Disjoint
      ((numeros_novos_ordenados h).take
        (15 - ((numeros_ultimo_ordenados h).take (media_repeticoes h)).length)) := by
    intro x hxr hxn
    have h1 : x ∈ ultimo_jogo h := hU.mem_iff.mp ((List.take_subset _ _) hxr)
    have h2x := (List.mem_filter.mp (hN.mem_iff.mp ((List.take_subset _ _) hxn))).2
    simp only [notInUltimo, Bool.not_eq_true] at h2x
    rw [← contains_iff_mem] at h1
    rw [h1] at h2x
    simp at h2x
  have hball : Valid15 (sortAsc ((numeros_ultimo_ordenados h).take (media_repeticoes h) ++
      (numeros_novos_ordenados h).take
        (15 - ((numeros_ultimo_ordenados h).take (media_repeticoes h)).length))) := by
    have hS := sortAsc_perm ((numeros_ultimo_ordenados h).take (media_repeticoes h) ++
      (numeros_novos_ordenados h).take
        (15 - ((numeros_ultimo_ordenados h).take (media_repeticoes h)).length))
    refine ⟨?_, ?_, ?_⟩
    · rw [hS.length_eq, List.length_append, hnovlen, hreplen]
      omega
    · refine hS.nodup_iff.mpr (List.nodup_append.mpr ⟨?_, ?_, hdisj⟩)
      · exact (List.take_sublist _ _).nodup (hU.nodup_iff.mpr hu.nodup)
      · exact (List.take_sublist _ _).nodup
          (hN.nodup_iff.mpr (todos_numeros_nodup.filter _))
    · intro n hn
      rcases List.mem_append.mp (hS.mem_iff.mp hn) with hn | hn
      · exact hu.2.2 n (hU.mem_iff.mp ((List.take_subset _ _) hn))
      · exact mem_todos_numeros.mp
          (List.mem_filter.mp (hN.mem_iff.mp ((List.take_subset _ _) hn))).1
  rw [jogo_repeticoes_eq (repeticoes_ne_nil h2)]
  exact ⟨by simp, by rw [Option.getD_some]; exact hball⟩

theorem jogo_repeticoes_none {h : History} (h1 : h.length = 1) :
    jogo_sequencias_repeticoes h = none := by
  have hnil : repeticoes h = [] := List.length_eq_zero.mp (by rw [repeticoes_length, h1])
  rw [jogo_sequencias_repeticoes, if_pos (by simp [hnil])]

/-! ## The range-distribution generator -/

theorem faixas_bounds : ∀ band ∈ faixas, ∀ n ∈ band, 1 ≤ n ∧ n ≤ 25 := by decide

theorem faixas_nodup : ∀ band ∈ faixas, band.Nodup := by decide

theorem faixas_disjoint : faixas.Pairwise (fun a b => ∀ x ∈ a, x ∉ b) := by decide

theorem selFaixa_subset (h : History) (band : List ℕ) : selFaixa h band ⊆ band :=
  fun x hx => (List.perm_insertionSort _ band).mem_iff.mp ((List.take_subset _ _) hx)

theorem selFaixa_nodup (h : History) {band : List ℕ} (hb : band.Nodup) :
    (selFaixa h band).Nodup :=
  (List.take_sublist _ _).nodup ((List.perm_insertionSort _ band).nodup_iff.mpr hb)

theorem jogo_distr_valid {h : History} (hne : h ≠ []) :
    (jogo_distribuicao_espacial h).isSome ∧
    ((jogo_distribuicao_espacial h).getD []).Nodup ∧
    ∀ n ∈ (jogo_distribuicao_espacial h).getD [], 1 ≤ n ∧ n ≤ 25 := by
  have hie : ¬(h.isEmpty = true) := by simpa [List.isEmpty_iff] using hne
  rw [jogo_distribuicao_espacial, if_neg hie]
  have hS := sortAsc_perm ((faixas.map (selFaixa h)).flatten)
  refine ⟨by simp, ?_, ?_⟩
  · rw [Option.getD_some]
    refine hS.nodup_iff.mpr (List.nodup_flatten.mpr ⟨?_, ?_⟩)
    · intro l hl
      obtain ⟨band, hband, rfl⟩ := List.mem_map.mp hl
      exact selFaixa_nodup h (faixas_nodup band hband)
    · refine List.Pairwise.map _ ?_ faixas_disjoint
      intro a b hab x hxa hxb
      exact hab x (selFaixa_subset h a hxa) (selFaixa_subset h b hxb)
  · intro n hn
    rw [Option.getD_some] at hn
    obtain ⟨l, hl, hnl⟩ := List.mem_flatten.mp (hS.mem_iff.mp hn)
    obtain ⟨band, hband, rfl⟩ := List.mem_map.mp hl
    exact faixas_bounds band hband n (selFaixa_subset h band hnl)

/-! ## The score-ranking generators -/

theorem jogo_prob_valid {h : History} (hne : h ≠ []) :
    GenOk (jogo_probabilidade_padrao h) := by
  rw [jogo_probabilidade_padrao, if_neg (by simpa [List.isEmpty_iff] using hne)]
  exact ⟨by simp, by rw [Option.getD_some]; exact select15_valid _⟩

theorem todos_ne_nil {h : History} (hv : ValidHistory h) (hne : h ≠ []) : todos h ≠ [] := by
  obtain ⟨d, t, rfl⟩ := List.exists_cons_of_ne_nil hne
  have hd := hv d (List.mem_cons_self d t)
  intro hcon
  rw [todos, List.flatten_eq_nil_iff] at hcon
  have hdnil := hcon d (List.mem_cons_self d t)
  rw [hdnil] at hd
  simp [ValidDraw] at hd

theorem jogo_ml_valid {h : History} (hv : ValidHistory h) (hne : h ≠ []) :
    GenOk (jogo_machine_learning_scoring h) := by
  rw [jogo_machine_learning_scoring,
    if_neg (by simpa [List.isEmpty_iff] using todos_ne_nil hv hne)]
  exact ⟨by simp, by rw [Option.getD_some]; exact select15_valid _⟩

/-! ## Run-length analysis -/

/-- Total length accounted for by a loop state: closed runs plus the open one. -/
def runMeasure : Bool × ℕ × List ℕ × List ℕ → ℕ
  | (_, seq, pres, aus) => pres.sum + aus.sum + seq

theorem runsStep_measure (st : Bool × ℕ × List ℕ × List ℕ) (b : Bool) :
    runMeasure (runsStep st b) = runMeasure st + 1 := by
  obtain ⟨em, seq, pres, aus⟩ := st
  have hsum : ∀ (l : List ℕ) (s : ℕ), (l ++ [s]).sum = l.sum + s := by
    intro l s
    simp
  cases b <;> cases em <;>
    simp only [runsStep, runMeasure] <;>
    first
      | omega
      | (split_ifs <;> (try simp only [hsum]) <;> omega)

theorem foldl_runsStep_measure :
    ∀ (l : List Bool) (st), runMeasure (l.foldl runsStep st) = runMeasure st + l.length
  | [], _ => by simp
  | b :: l, st => by
    rw [List.foldl_cons, foldl_runsStep_measure l (runsStep st b), runsStep_measure]
    simp only [List.length_cons]
    omega

/-- The recorded presence and absence runs partition the trace: their total
length is the trace length. -/
theorem runsOf_sum (ap : List Bool) : (runsOf ap).1.sum + (runsOf ap).2.sum = ap.length := by
  have hm := foldl_runsStep_measure ap (ap.headD false, 0, [], [])
  rcases hfold : ap.foldl runsStep (ap.headD false, 0, [], []) with ⟨em, seq, pres, aus⟩
  rw [hfold] at hm
  simp only [runMeasure, List.sum_nil] at hm
  rw [runsOf, hfold]
  dsimp only
  split_ifs with h1 h2 <;> (try simp only [List.sum_append, List.sum_cons, List.sum_nil]) <;> omega

/-- For a non-empty trace exactly one of the two trailing counters is
positive: the one matching the last draw. -/
theorem mkStats_trailing (numero : ℕ) {ap : List Bool} (hne : ap ≠ []) :
    (0 < (mkStats numero ap).sorteios_aparecendo ∧
      (mkStats numero ap).sorteios_sem_aparecer = 0) ∨
    ((mkStats numero ap).sorteios_aparecendo = 0 ∧
      0 < (mkStats numero ap).sorteios_sem_aparecer) := by
  obtain ⟨b, t, hbt⟩ := List.exists_cons_of_ne_nil (l := ap.reverse) (by simpa using hne)
  have hlast : ap.getLastD false = b := by
    have h1 : ap.reverse.head? = ap.getLast? := List.head?_reverse ap
    rw [hbt] at h1
    rw [List.getLastD_eq_getLast?, ← h1]
    simp
  have hap : (mkStats numero ap).sorteios_aparecendo =
      if ap.getLastD false then (ap.reverse.takeWhile (fun x => x)).length else 0 := rfl
  have hsem : (mkStats numero ap).sorteios_sem_aparecer =
      if ap.getLastD false then 0 else (ap.reverse.takeWhile (fun x => !x)).length := rfl
  cases hb : b
  · rw [hb] at hlast hbt
    right
    constructor
    · rw [hap, hlast, if_neg (by simp)]
    · rw [hsem, hlast, if_neg (by simp), hbt]
      simp [List.takeWhile_cons]
  · rw [hb] at hlast hbt
    left
    constructor
    · rw [hap, hlast, if_pos rfl, hbt]
      simp [List.takeWhile_cons]
    · rw [hsem, hlast, if_pos rfl]

/-! ## The Scoring Engine (spec formulation) -/

/-- The Scoring-Engine formula exactly as the spec words it: base term for the
current streak, plus `(total appearances / total draws) * 30`, minus 30 iff the
number is appearing and its streak exceeds 0.8 times the longest presence
run. -/
def specScoreC2 (histLen : ℕ) (stats : Stats) : ℚ :=
  (if stats.apareceu_ultimo then
     if (stats.sorteios_aparecendo : ℚ) < stats.media_seq_presente then 50 else 20
   else if stats.media_seq_ausente ≤ (stats.sorteios_sem_aparecer : ℚ) then 60 else 10)
  + (stats.total_aparicoes : ℚ) / (histLen : ℚ) * 30
  - (if stats.apareceu_ultimo ∧
       (stats.max_seq_presente : ℚ) * (8 / 10) < (stats.sorteios_aparecendo : ℚ) then 30 else 0)

theorem calcular_eq_specScore (histLen : ℕ) (s : Stats) :
    calcular_probabilidade_proximo histLen s = specScoreC2 histLen s := by
  simp only [calcular_probabilidade_proximo, specScoreC2]
  split_ifs <;> ring

/-! ## The history extractor -/

theorem rowInts_eq_none {r : List Cell} : rowInts r = none ↔ Cell.nonNumeric ∈ r := by
  induction r with
  | nil => simp [rowInts]
  | cons c cs ih =>
    cases c with
    | missing =>
      rw [rowInts]
      simp [ih]
    | nonNumeric => simp [rowInts]
    | val z =>
      rw [rowInts]
      simp [Option.map_eq_none', ih]

theorem rowInts_of_no_bad {r : List Cell} (hnb : Cell.nonNumeric ∉ r) :
    rowInts r = some (r.filterMap cellVal) := by
  induction r with
  | nil => simp [rowInts]
  | cons c cs ih =>
    have hnot : Cell.nonNumeric ∉ cs := fun hc => hnb (List.mem_cons_of_mem _ hc)
    cases c with
    | missing =>
      rw [rowInts, ih hnot]
      simp [List.filterMap_cons, cellVal]
    | nonNumeric => exact absurd (List.mem_cons_self _ _) hnb
    | val z =>
      rw [rowInts, ih hnot]
      simp [List.filterMap_cons, cellVal]

/-- One row of the extractor behaves exactly as the spec says: it contributes
its 15 integers sorted iff all 15 ball fields parse. -/
theorem row_extract_eq_spec {r : List Cell} (hr : r.length = 15) :
    (rowInts r).bind (fun ns => if ns.length = 15 then some (sortAsc ns) else none) =
      rowSpec r := by
  by_cases hb : Cell.nonNumeric ∈ r
  · rw [rowInts_eq_none.mpr hb, Option.none_bind, rowSpec, if_neg]
    rintro ⟨-, hall⟩
    have hbad := hall _ hb
    simp [cellVal] at hbad
  · rw [rowInts_of_no_bad hb, Option.some_bind]
    have hcount : (r.filterMap cellVal).length = r.countP (fun c => (cellVal c).isSome) :=
      List.length_filterMap_eq_countP cellVal r
    by_cases hall : ∀ c ∈ r, (cellVal c).isSome
    · have hlen : (r.filterMap cellVal).length = 15 := by
        rw [hcount, List.countP_eq_length.mpr (fun a ha => by simpa using hall a ha), hr]
      rw [if_pos hlen, rowSpec, if_pos ⟨hr, hall⟩]
    · have hlt : r.countP (fun c => (cellVal c).isSome) < r.length := by
        rcases Nat.lt_or_ge (r.countP (fun c => (cellVal c).isSome)) r.length with hlt | hge
        · exact hlt
        · have heq : r.countP (fun c => (cellVal c).isSome) = r.length :=
            le_antisymm (List.countP_le_length _) hge
          exact absurd (fun c hc => by simpa using List.countP_eq_length.mp heq c hc) hall
      have hlen_ne : ¬((r.filterMap cellVal).length = 15) := by
        rw [hcount]
        omega
      rw [if_neg hlen_ne, rowSpec, if_neg (fun hcon => hall hcon.2)]

/-! ## The multi-factor score (spec formulation) -/

/-- The multi-factor score exactly as the spec words it: four weighted
normalized components summed. -/
def mfSpecScore (h : History) (num : ℕ) : ℚ :=
  25 * (((todos h).count num : ℚ) / (maxCount (todos h) : ℚ))
  + 30 * (((recentes h).count num : ℚ) / (maxCount (recentes h) : ℚ))
  + 25 * (probOf h num / 100)
  + (if 2 ≤ (ultimos_5 h).count num then 20
     else if (ultimos_5 h).count num = 1 then 10 else 0)

theorem recentes_ne_nil {h : History} (hv : ValidHistory h) (hne : h ≠ []) :
    recentes h ≠ [] := by
  have hd : h.drop (h.length - 50) ≠ [] := by
    have hlen : (h.drop (h.length - 50)).length = h.length - (h.length - 50) :=
      List.length_drop _ _
    intro hcon
    rw [hcon] at hlen
    simp only [List.length_nil] at hlen
    have hpos : h.length ≠ 0 := fun hc => hne (List.length_eq_zero.mp hc)
    omega
  exact todos_ne_nil (fun d hd2 => hv d (List.drop_subset _ _ hd2)) hd

theorem mfScore_eq_spec {h : History} (hrec : recentes h ≠ []) (num : ℕ) :
    mfScore h num = mfSpecScore h num := by
  rw [mfScore, mfSpecScore, if_neg (by simpa [List.isEmpty_iff] using hrec)]
  ring

/-! ## Concrete histories used as witnesses and counterexamples -/

/-- The three-draw history of the repository's own test fixture. -/
def hMock : History :=
  [[1, 2, 3, 4, 5, 6, 7, 8, 9, 10, 11, 12, 13, 14, 15],
   [1, 2, 3, 4, 5, 16, 17, 18, 19, 20, 21, 22, 23, 24, 25],
   [1, 2, 3, 6, 7, 8, 9, 10, 11, 16, 17, 18, 19, 20, 25]]

/-- Two valid draws whose per-band means round to quotas summing to 13. -/
def hC1a : History :=
  [[1, 2, 3, 4, 5, 6, 7, 8, 9, 10, 11, 12, 13, 14, 15],
   [1, 2, 3, 4, 6, 7, 8, 9, 11, 12, 13, 14, 16, 17, 21]]

/-- A single-draw history: `np.mean([])` makes the repetition generator raise. -/
def hC1b : History := [[1, 2, 3, 4, 5, 6, 7, 8, 9, 10, 11, 12, 13, 14, 15]]

/-- Two identical draws: only 15 distinct numbers ever occur. -/
def hC7cex : History :=
  [[1, 2, 3, 4, 5, 6, 7, 8, 9, 10, 11, 12, 13, 14, 15],
   [1, 2, 3, 4, 5, 6, 7, 8, 9, 10, 11, 12, 13, 14, 15]]

/-- Two draws sharing exactly the numbers 1 and 12..15; twenty numbers miss a
draw, number 1 appears in all. -/
def hC7w : History :=
  [[1, 2, 3, 4, 5, 6, 7, 8, 9, 10, 11, 12, 13, 14, 15],
   [1, 12, 13, 14, 15, 16, 17, 18, 19, 20, 21, 22, 23, 24, 25]]

/-- The rows of the test fixture with the malformed second row (`DEZESSETE` in
the eighth ball column). -/
def rowsMock : List (List Cell) :=
  [[Cell.val 1, Cell.val 2, Cell.val 3, Cell.val 4, Cell.val 5, Cell.val 6, Cell.val 7,
    Cell.val 8, Cell.val 9, Cell.val 10, Cell.val 11, Cell.val 12, Cell.val 13, Cell.val 14,
    Cell.val 15],
   [Cell.val 1, Cell.val 2, Cell.val 3, Cell.val 4, Cell.val 5, Cell.val 16, Cell.val 17,
    Cell.nonNumeric, Cell.val 19, Cell.val 20, Cell.val 21, Cell.val 22, Cell.val 23,
    Cell.val 24, Cell.val 25],
   [Cell.val 1, Cell.val 2, Cell.val 3, Cell.val 6, Cell.val 7, Cell.val 8, Cell.val 9,
    Cell.val 10, Cell.val 11, Cell.val 16, Cell.val 17, Cell.val 18, Cell.val 19, Cell.val 20,
    Cell.val 25]]

/-! ## Claims -/

/-- The conjunction claimed by C1, amended: five generators always return a
valid 15-number CandidateSet on a valid non-empty history; the repetition
generator does so from 2 draws on and raises on exactly 1 draw; the
range-distribution generator returns distinct in-range numbers but not
necessarily 15 of them. -/
def C1Prop (h : History) : Prop :=
  Valid15 (jogo_mais_sorteados h) ∧
  Valid15 (jogo_menos_sorteados h) ∧
  GenOk (jogo_probabilidade_padrao h) ∧
  GenOk (jogo_pares_impares_equilibrado h) ∧
  (2 ≤ h.length → GenOk (jogo_sequencias_repeticoes h)) ∧
  (h.length = 1 → jogo_sequencias_repeticoes h = none) ∧
  (jogo_distribuicao_espacial h).isSome ∧
  ((jogo_distribuicao_espacial h).getD []).Nodup ∧
  (∀ n ∈ (jogo_distribuicao_espacial h).getD [], 1 ≤ n ∧ n ≤ 25) ∧
  GenOk (jogo_machine_learning_scoring h)

/-- Claim C1 (amended): for every non-empty History of valid draws the
most-frequent, least-frequent, pattern-probability, parity-balanced and
multi-factor generators return exactly 15 distinct numbers in [1,25]; the
repetition-based generator does so when the History has at least 2 draws (on a
single draw it raises); the range-distribution generator returns distinct
numbers in [1,25] whose count may differ from 15. -/
theorem claim_C1 (h : History) (hv : ValidHistory h) (hne : h ≠ []) : C1Prop h := by
  have hd := jogo_distr_valid (h := h) hne
  exact ⟨jogo_mais_valid hv hne, jogo_menos_valid hv hne, jogo_prob_valid hne,
    jogo_pares_valid hv hne, fun h2 => jogo_repeticoes_valid hv h2,
    fun h1 => jogo_repeticoes_none h1, hd.1, hd.2.1, hd.2.2, jogo_ml_valid hv hne⟩

theorem claim_C1_witness : ValidHistory hMock ∧ hMock ≠ [] ∧ C1Prop hMock :=
  ⟨by decide, by decide, claim_C1 hMock (by decide) (by decide)⟩

/-- Counterexample to C1 as stated: on the valid 2-draw history `hC1a` the
range-distribution generator returns only 13 numbers, and on the valid
non-empty 1-draw history `hC1b` the repetition generator raises. -/
theorem claim_C1_cex :
    ValidHistory hC1a ∧ hC1a ≠ [] ∧
    jogo_distribuicao_espacial hC1a = some [1, 2, 3, 4, 6, 7, 8, 9, 11, 12, 13, 14, 16] ∧
    ((jogo_distribuicao_espacial hC1a).getD []).length = 13 ∧
    ValidHistory hC1b ∧ hC1b ≠ [] ∧
    jogo_sequencias_repeticoes hC1b = none := by decide

/-- Claim C2: the Scoring-Engine score of any number over a non-empty History
is exactly the spec's formula: streak base (50/20 when appearing, 60/10 when
absent) plus `(total appearances / |History|) * 30`, minus 30 iff the number is
appearing and its streak exceeds 0.8 times the longest presence run. -/
theorem claim_C2 (h : History) (n : ℕ) (hne : h ≠ []) :
    _analisar_padroes_numero n h = some (mkStats n (apOf n h)) ∧
    calcular_probabilidade_proximo h.length (mkStats n (apOf n h)) =
      specScoreC2 h.length (mkStats n (apOf n h)) := by
  constructor
  · rw [_analisar_padroes_numero,
      if_neg (by simp [apOf, List.isEmpty_iff, hne])]
  · exact calcular_eq_specScore _ _

theorem claim_C2_witness :
    _analisar_padroes_numero 5 hMock = some (mkStats 5 (apOf 5 hMock)) ∧
    calcular_probabilidade_proximo hMock.length (mkStats 5 (apOf 5 hMock)) =
      specScoreC2 hMock.length (mkStats 5 (apOf 5 hMock)) :=
  claim_C2 hMock 5 (by decide)

/-- Claim C3: the History extractor is, row for row and in input order, the
spec's row function: a row whose 15 ball fields all parse contributes those
integers sorted ascending, any other row contributes nothing. -/
theorem claim_C3 (rows : List (List Cell)) (hrows : ∀ r ∈ rows, r.length = 15) :
    _extrair_historico rows = rows.filterMap rowSpec := by
  rw [_extrair_historico]
  exact List.filterMap_congr fun r hr => row_extract_eq_spec (hrows r hr)

theorem claim_C3_witness : _extrair_historico rowsMock = rowsMock.filterMap rowSpec :=
  claim_C3 rowsMock (by decide)

/-- Claim C4: for any number and non-empty History the Run-Length Analyzer
succeeds, exactly one of the two trailing counters is positive, and the
recorded presence-run lengths and absence-run lengths sum to `|History|`. -/
theorem claim_C4 (n : ℕ) (h : History) (h1 : 1 ≤ n) (h25 : n ≤ 25) (hne : h ≠ []) :
    _analisar_padroes_numero n h = some (mkStats n (apOf n h)) ∧
    ((0 < (mkStats n (apOf n h)).sorteios_aparecendo ∧
        (mkStats n (apOf n h)).sorteios_sem_aparecer = 0) ∨
      ((mkStats n (apOf n h)).sorteios_aparecendo = 0 ∧
        0 < (mkStats n (apOf n h)).sorteios_sem_aparecer)) ∧
    (runsOf (apOf n h)).1.sum + (runsOf (apOf n h)).2.sum = h.length := by
  have hap : apOf n h ≠ [] := by
    rw [apOf]
    simpa using hne
  refine ⟨?_, mkStats_trailing n hap, ?_⟩
  · rw [_analisar_padroes_numero, if_neg (by simpa [List.isEmpty_iff] using hap)]
  · rw [runsOf_sum, apOf, List.length_map]

theorem claim_C4_witness :
    _analisar_padroes_numero 5 hMock = some (mkStats 5 (apOf 5 hMock)) ∧
    ((0 < (mkStats 5 (apOf 5 hMock)).sorteios_aparecendo ∧
        (mkStats 5 (apOf 5 hMock)).sorteios_sem_aparecer = 0) ∨
      ((mkStats 5 (apOf 5 hMock)).sorteios_aparecendo = 0 ∧
        0 < (mkStats 5 (apOf 5 hMock)).sorteios_sem_aparecer)) ∧
    (runsOf (apOf 5 hMock)).1.sum + (runsOf (apOf 5 hMock)).2.sum = hMock.length :=
  claim_C4 5 hMock (by decide) (by decide) (by decide)

/-- Claim C5: on a valid non-empty History the multi-factor generator returns
exactly the 15 numbers ranked highest by the spec's blended score (general
frequency 25%, last-50 frequency 30%, rescaled pattern score 25%, hot-number
step 20%), with ties broken by ascending number. -/
theorem claim_C5 (h : History) (hv : ValidHistory h) (hne : h ≠ []) :
    jogo_machine_learning_scoring h = some (select15lex (mfSpecScore h)) := by
  rw [jogo_machine_learning_scoring,
    if_neg (by simpa [List.isEmpty_iff] using todos_ne_nil hv hne)]
  have hfun : mfScore h = mfSpecScore h :=
    funext (mfScore_eq_spec (recentes_ne_nil hv hne))
  rw [select15_eq_lex, hfun]

theorem claim_C5_witness :
    jogo_machine_learning_scoring hMock = some (select15lex (mfSpecScore hMock)) :=
  claim_C5 hMock (by decide) (by decide)

/-- Claim C6: with at least 2 draws the repetition generator succeeds; its
output contains exactly `media_repeticoes h` numbers of the most recent draw,
namely the ones ranked highest by frequency-excluding-the-last-draw (ties by
ascending number), and its remaining numbers are the highest-ranked numbers
not in the most recent draw. -/
theorem claim_C6 (h : History) (hv : ValidHistory h) (h2 : 2 ≤ h.length) :
    (jogo_sequencias_repeticoes h).isSome ∧
    ((jogo_sequencias_repeticoes h).getD []).countP (inUltimo h) = media_repeticoes h ∧
    (((jogo_sequencias_repeticoes h).getD []).filter (inUltimo h)).Perm
      ((List.insertionSort (rlK (cntExcl h) id) (ultimo_jogo h)).take (media_repeticoes h)) ∧
    (((jogo_sequencias_repeticoes h).getD []).filter (notInUltimo h)).Perm
      ((List.insertionSort (rlK (cntExcl h) id) (numeros_novos h)).take
        (15 - media_repeticoes h)) := by
  have hne : h ≠ [] := by
    intro hc
    rw [hc] at h2
    simp at h2
  have hu : ValidDraw (ultimo_jogo h) := hv _ (ultimo_jogo_mem hne)
  have hm := media_repeticoes_bounds hv h2
  have hU : (numeros_ultimo_ordenados h).Perm (ultimo_jogo h) := List.perm_insertionSort _ _
  have hN : (numeros_novos_ordenados h).Perm (numeros_novos h) := List.perm_insertionSort _ _
  have hUlen : (numeros_ultimo_ordenados h).length = 15 := by rw [hU.length_eq, hu.1]
  have hreplen : ((numeros_ultimo_ordenados h).take (media_repeticoes h)).length =
      media_repeticoes h := by
    rw [List.length_take, hUlen]
    exact min_eq_left (by omega)
  have hlexU : numeros_ultimo_ordenados h =
      List.insertionSort (rlK (cntExcl h) id) (ultimo_jogo h) := by
    rw [numeros_ultimo_ordenados]
    exact insertionSort_rdK_eq_rlK (cntExcl h) id (ultimo_jogo h) hu.2.1
  have hlexN : numeros_novos_ordenados h =
      List.insertionSort (rlK (cntExcl h) id) (numeros_novos h) := by
    rw [numeros_novos_ordenados]
    exact insertionSort_rdK_eq_rlK (cntExcl h) id (numeros_novos h)
      (todos_numeros_pairwise.filter (notInUltimo h))
  rw [jogo_repeticoes_eq (repeticoes_ne_nil h2)]
  simp only [Option.isSome_some, Option.getD_some]
  set rep := (numeros_ultimo_ordenados h).take (media_repeticoes h) with hrepdef
  set novT := (numeros_novos_ordenados h).take (15 - rep.length) with hnovdef
  have hS : (sortAsc (rep ++ novT)).Perm (rep ++ novT) := sortAsc_perm _
  have hrepmem : ∀ x ∈ rep, inUltimo h x = true := by
    intro x hx
    rw [inUltimo]
    exact contains_iff_mem.mpr (hU.mem_iff.mp ((List.take_subset _ _) hx))
  have hnovmem : ∀ x ∈ novT, inUltimo h x = false := by
    intro x hx
    have h2x := (List.mem_filter.mp (hN.mem_iff.mp ((List.take_subset _ _) hx))).2
    simp only [notInUltimo, Bool.not_eq_true'] at h2x
    rw [inUltimo]
    exact h2x
  have hfilter1 : ((sortAsc (rep ++ novT)).filter (inUltimo h)).Perm rep := by
    refine (hS.filter (inUltimo h)).trans ?_
    rw [List.filter_append, List.filter_eq_self.mpr hrepmem,
      List.filter_eq_nil_iff.mpr (fun a ha => by simp [hnovmem a ha]), List.append_nil]
  have hfilter2 : ((sortAsc (rep ++ novT)).filter (notInUltimo h)).Perm novT := by
    refine (hS.filter (notInUltimo h)).trans ?_
    rw [List.filter_append,
      List.filter_eq_nil_iff.mpr
        (fun a ha => by simp [notInUltimo, inUltimo] at *; simp [hrepmem a ha]),
      List.filter_eq_self.mpr
        (fun a ha => by simp [notInUltimo, inUltimo] at *; simp [hnovmem a ha]),
      List.nil_append]
  refine ⟨trivial, ?_, ?_, ?_⟩
  · rw [List.countP_eq_length_filter, hfilter1.length_eq, hreplen]
  · rw [← hlexU, ← hrepdef]
    exact hfilter1
  · rw [← hlexN, ← hreplen, ← hnovdef]
    exact hfilter2

theorem claim_C6_witness :
    (jogo_sequencias_repeticoes hMock).isSome ∧
    ((jogo_sequencias_repeticoes hMock).getD []).countP (inUltimo hMock) =
      media_repeticoes hMock ∧
    (((jogo_sequencias_repeticoes hMock).getD []).filter (inUltimo hMock)).Perm
      ((List.insertionSort (rlK (cntExcl hMock) id) (ultimo_jogo hMock)).take
        (media_repeticoes hMock)) ∧
    (((jogo_sequencias_repeticoes hMock).getD []).filter (notInUltimo hMock)).Perm
      ((List.insertionSort (rlK (cntExcl hMock) id) (numeros_novos hMock)).take
        (15 - media_repeticoes hMock)) :=
  claim_C6 hMock (by decide) (by decide)

/-- Claim C7 (amended): on a valid History with at least 2 draws and at least
15 occurring numbers that miss some draw, a number appearing in every draw is
never in the Least-frequent output. -/
theorem claim_C7 (h : History) (hv : ValidHistory h) (h2 : 2 ≤ h.length)
    (h15 : 15 ≤ nonUniversalCount h) (n : ℕ) (hall : appearsInAll n h) :
    n ∉ jogo_menos_sorteados h :=
  not_mem_menos_of_appearsInAll hv h15 hall

theorem claim_C7_witness :
    ValidHistory hC7w ∧ 2 ≤ hC7w.length ∧ 15 ≤ nonUniversalCount hC7w ∧
    appearsInAll 1 hC7w ∧ 1 ∉ jogo_menos_sorteados hC7w :=
  ⟨by decide, by decide, by decide, by decide,
    claim_C7 hC7w (by decide) (by decide) (by decide) 1 (by decide)⟩

/-- Counterexample to C7 as stated: on the valid 2-draw history of two equal
draws, the number 1 appears in every draw and still appears in the
Least-frequent output (only 15 distinct numbers ever occur, so
`most_common()[-15:]` is all of them). -/
theorem claim_C7_cex :
    ValidHistory hC7cex ∧ 2 ≤ hC7cex.length ∧ appearsInAll 1 hC7cex ∧
    1 ∈ jogo_menos_sorteados hC7cex := by decide

/-- Claim C8: the Run-Length Analyzer on the empty History does not return
zeroed statistics: it evaluates `aparicoes[0]` on an empty list and raises
`IndexError` (modelled by `none`), for any number. -/
theorem claim_C8 : _analisar_padroes_numero 5 ([] : History) = none := rfl

/-- Claim C9: the sequence-prediction generator returns an empty candidate set
with a non-empty explanatory message, and trains no model, whenever TensorFlow
is unavailable or the History has fewer than 11 draws. -/
theorem claim_C9 (tf : Bool) (h : History) (hcond : tf = false ∨ h.length < 11) :
    jogo_series_temporais_lstm tf h ≠ LstmResult.trains ∧
    (jogo_series_temporais_lstm tf h = LstmResult.returned [] msg_sem_tensorflow ∨
      jogo_series_temporais_lstm tf h = LstmResult.returned [] msg_historico_insuficiente) ∧
    msg_sem_tensorflow ≠ [] ∧ msg_historico_insuficiente ≠ [] := by
  refine ⟨?_, ?_, by simp [msg_sem_tensorflow], by simp [msg_historico_insuficiente]⟩ <;>
    rcases hcond with rfl | hlen
  · simp [jogo_series_temporais_lstm]
  · cases tf
    · simp [jogo_series_temporais_lstm]
    · simp [jogo_series_temporais_lstm, sequence_length, hlen]
  · exact Or.inl (by simp [jogo_series_temporais_lstm])
  · cases tf
    · exact Or.inl (by simp [jogo_series_temporais_lstm])
    · exact Or.inr (by simp [jogo_series_temporais_lstm, sequence_length, hlen])

theorem claim_C9_witness :
    jogo_series_temporais_lstm false hMock ≠ LstmResult.trains ∧
    (jogo_series_temporais_lstm false hMock = LstmResult.returned [] msg_sem_tensorflow ∨
      jogo_series_temporais_lstm false hMock =
        LstmResult.returned [] msg_historico_insuficiente) ∧
    msg_sem_tensorflow ≠ [] ∧ msg_historico_insuficiente ≠ [] :=
  claim_C9 false hMock (Or.inl rfl)

end Lotofacil
